import Mathlib

/-!
# Verification of the JavaAIGrader static-analysis core

Shallow embedding of the grading pipeline in `grader.py`: the lexical
stripper `remove_comments_and_strings`, the style checks `check_brackets`
and `check_new_lines`, the submission normalizer
`preprocess_student_submission`, the response parser `parse_ai_response`,
and the score aggregation in `check_formatting` / `grade_submissions`.

Python strings are modelled as `List Char`; file contents are the text the
functions read.  Regex scanning is modelled by explicit left-to-right
matchers that follow Python `re` semantics (leftmost match, alternative
order, greedy/lazy quantifiers) for the concrete patterns in the source.
-/

namespace Grader

/-- ASCII whitespace accepted by Python's `str.strip()` and `\s`
(the submissions in question are ASCII; Unicode whitespace is not modelled). -/
def isPySpace (c : Char) : Bool :=
  c == ' ' || c == '\t' || c == '\n' || c == '\r' || c == '\x0b' || c == '\x0c'

/-- Python `str.strip()`: drop leading and trailing whitespace. -/
def pyStrip (cs : List Char) : List Char :=
  ((cs.dropWhile isPySpace).reverse.dropWhile isPySpace).reverse

/-- Python `str.readlines()` splitting: keep the `'\n'` terminators,
a final fragment without `'\n'` is its own line, `""` gives no lines. -/
def pyReadlinesAux (acc : List Char) : List Char → List (List Char)
  | [] => if acc.isEmpty then [] else [acc.reverse]
  | c :: rest =>
    if c = '\n' then ('\n' :: acc).reverse :: pyReadlinesAux [] rest
    else pyReadlinesAux (c :: acc) rest

/-- `open(f).readlines()` on the file text. -/
def pyReadlines (cs : List Char) : List (List Char) :=
  pyReadlinesAux [] cs

/-- Python `str.split('\n')` (separators removed, `""` gives `[""]`). -/
def splitNl : List Char → List (List Char)
  | [] => [[]]
  | c :: rest =>
    if c = '\n' then [] :: splitNl rest
    else
      match splitNl rest with
      | [] => [[c]]
      | l :: ls => (c :: l) :: ls

end Grader

namespace Grader

/-! ## Lexical stripper: `remove_comments_and_strings`

The source compiles the verbose pattern

    //.*?$  |  /\*[\s\S]*?\*/  |  "(?:\\.|[^"\\])*"  |  '(?:\\.|[^'\\])*'

with `re.MULTILINE` and substitutes each match by a same-length run of
spaces.  `re.sub` scans left to right; at a position where no alternative
matches it advances one character.  The four alternatives start with the
disjoint prefixes `//`, `/*`, `"`, `'`. -/

/-- Number of characters matched by `.*?$` from here: everything up to
(but excluding) the next newline or the end of input. -/
def lineLen : List Char → Nat
  | [] => 0
  | c :: rest => if c = '\n' then 0 else lineLen rest + 1

/-- Length matched by the lazy `[\s\S]*?\*/` tail of a block comment:
up to and including the first `*/`; `none` if the comment never closes. -/
def findStarSlash : List Char → Option Nat
  | [] => none
  | c :: rest =>
    if c = '*' ∧ rest.head? = some '/' then some 2
    else (findStarSlash rest).map (· + 1)

/-- Length matched by `(?:\\.|[^"\\])*"` after an opening double quote:
the body (escapes `\\.` do not cross a newline) plus the closing quote.
`none` when the literal never closes, exactly as the regex fails then. -/
def strBody : List Char → Option Nat
  | [] => none
  | '"' :: _ => some 1
  | '\\' :: [] => none
  | '\\' :: d :: rest2 => if d = '\n' then none else (strBody rest2).map (· + 2)
  | _ :: rest => (strBody rest).map (· + 1)

/-- Length matched by `(?:\\.|[^'\\])*'` after an opening single quote. -/
def chrBody : List Char → Option Nat
  | [] => none
  | '\'' :: _ => some 1
  | '\\' :: [] => none
  | '\\' :: d :: rest2 => if d = '\n' then none else (chrBody rest2).map (· + 2)
  | _ :: rest => (chrBody rest).map (· + 1)

/-- Length of the regex match starting at this position, if any
(the alternatives' two-character prefixes are disjoint, so the regex's
alternative order coincides with this case split). -/
def tryMatch : List Char → Option Nat
  | '/' :: '/' :: rest => some (2 + lineLen rest)
  | '/' :: '*' :: rest => (findStarSlash rest).map (· + 2)
  | '"' :: rest => (strBody rest).map (· + 1)
  | '\'' :: rest => (chrBody rest).map (· + 1)
  | _ => none

/-- One left-to-right `re.sub` scan, replacing each match by an
equal-length run of spaces; fueled so that the kernel can evaluate it. -/
def stripFuel : Nat → List Char → List Char
  | 0, cs => cs
  | _ + 1, [] => []
  | fuel + 1, c :: rest =>
    match tryMatch (c :: rest) with
    | some (n + 1) => List.replicate (n + 1) ' ' ++ stripFuel fuel (rest.drop n)
    | _ => c :: stripFuel fuel rest

/-- `remove_comments_and_strings` from `grader.py`. -/
def remove_comments_and_strings (code : List Char) : List Char :=
  stripFuel code.length code

namespace SpecModel

/-- States of the construct scanner described in the spec (§4.1/§9):
normal code, line comment, block comment, string literal, char literal. -/
inductive ScanState where
  | normal
  | lineC
  | blockC
  | str
  | chr
deriving DecidableEq

/-- Reference Lexical Stripper following the spec's words (§4.1, §9): an
explicit left-to-right state machine that blanks every character belonging
to a comment or literal (delimiters included), preserves newlines so line
count is unchanged, honours backslash escapes inside literals, and lets an
unterminated block comment or literal consume to end-of-input.  This
definition follows the specification, not the source; it is the comparison
point for refinement counterexamples. -/
def specStripGo : ScanState → List Char → List Char
  | _, [] => []
  | .normal, '/' :: '/' :: rest => ' ' :: ' ' :: specStripGo .lineC rest
  | .normal, '/' :: '*' :: rest => ' ' :: ' ' :: specStripGo .blockC rest
  | .normal, '"' :: rest => ' ' :: specStripGo .str rest
  | .normal, '\'' :: rest => ' ' :: specStripGo .chr rest
  | .normal, c :: rest => c :: specStripGo .normal rest
  | .lineC, '\n' :: rest => '\n' :: specStripGo .normal rest
  | .lineC, _ :: rest => ' ' :: specStripGo .lineC rest
  | .blockC, '*' :: '/' :: rest => ' ' :: ' ' :: specStripGo .normal rest
  | .blockC, '\n' :: rest => '\n' :: specStripGo .blockC rest
  | .blockC, _ :: rest => ' ' :: specStripGo .blockC rest
  | .str, '\\' :: '\n' :: rest => ' ' :: '\n' :: specStripGo .str rest
  | .str, '\\' :: _ :: rest => ' ' :: ' ' :: specStripGo .str rest
  | .str, '"' :: rest => ' ' :: specStripGo .normal rest
  | .str, '\n' :: rest => '\n' :: specStripGo .str rest
  | .str, _ :: rest => ' ' :: specStripGo .str rest
  | .chr, '\\' :: '\n' :: rest => ' ' :: '\n' :: specStripGo .chr rest
  | .chr, '\\' :: _ :: rest => ' ' :: ' ' :: specStripGo .chr rest
  | .chr, '\'' :: rest => ' ' :: specStripGo .normal rest
  | .chr, '\n' :: rest => '\n' :: specStripGo .chr rest
  | .chr, _ :: rest => ' ' :: specStripGo .chr rest

/-- The spec-described stripper, starting in normal state. -/
def specStrip (code : List Char) : List Char :=
  specStripGo .normal code

end SpecModel

/-! ## Style Analyzer -/

/-- The brace-violation loop body of `check_brackets`: skip blank lines,
count 1 for any line that contains a brace and is not exactly `{` or `}`. -/
def check_brackets (code : List Char) : Nat :=
  let code_no_comments := remove_comments_and_strings code
  let lines := splitNl code_no_comments
  lines.foldl
    (fun errors line =>
      let stripped_line := pyStrip line
      if stripped_line.isEmpty then errors
      else if '{' ∈ stripped_line ∨ '}' ∈ stripped_line then
        if stripped_line = ['{'] ∨ stripped_line = ['}'] then errors
        else errors + 1
      else errors)
    0

/-- The claim's description of a brace-violating line of the structural
view: non-blank after trimming, contains a brace, and its trimmed content
is not exactly `{` and not exactly `}`.  Stated from the claim's words as
the comparison point for `check_brackets`. -/
def braceViolationLine (l : List Char) : Bool :=
  decide (pyStrip l ≠ [] ∧ ('{' ∈ pyStrip l ∨ '}' ∈ pyStrip l) ∧
    pyStrip l ≠ ['{'] ∧ pyStrip l ≠ ['}'])

/-- The prefix tested by `line.startswith('System.out.println(')`. -/
def printlnPrefix : List Char := "System.out.println(".data

/-- The required boundary literal of `check_new_lines`
(`'System.out.println("\\n\\n\\n");'` in the Python source: the file line
must contain the two-character escape sequences, not real newlines). -/
def required_print : List Char := "System.out.println(\"\\n\\n\\n\");".data

/-- `check_new_lines` from `grader.py`: take the first and last raw lines
that start with the print call, and return the chained comparison
`first_print != required_print + last_print != required_print`, which in
Python means `(first ≠ required ++ last) and (required ++ last ≠ required)`. -/
def check_new_lines (text : List Char) : Bool :=
  let lines := pyReadlines text
  let prints := lines.filter (fun l => printlnPrefix.isPrefixOf l)
  match prints with
  | [] => false
  | first_print :: restPrints =>
    let last_print := (first_print :: restPrints).getLast (List.cons_ne_nil _ _)
    decide (first_print ≠ required_print ++ last_print) &&
      decide (required_print ++ last_print ≠ required_print)

/-- `check_formatting` from `grader.py`: each rule's count is turned into
`min(max_cap, count * per_violation_cost)` and the two deductions are
summed.  Configuration values are exact rationals (the idealization of the
Python numbers; every value used here is exactly representable). -/
def check_formatting (text : List Char) (bracketsMax bracketsPer newLinesMax newLinesPer : ℚ) : ℚ :=
  let deductions : ℚ := 0
  let deductions := deductions + min bracketsMax ((check_brackets text : ℚ) * bracketsPer)
  let deductions := deductions +
    min newLinesMax ((if check_new_lines text then (1 : ℚ) else 0) * newLinesPer)
  deductions

/-- The aggregation step `score -= check_formatting(java_file, config)` in
`grade_submissions`. -/
def final_score (modelScore : ℚ) (text : List Char)
    (bracketsMax bracketsPer newLinesMax newLinesPer : ℚ) : ℚ :=
  modelScore - check_formatting text bracketsMax bracketsPer newLinesMax newLinesPer

/-! ## Response Contract Parser -/

/-- Python float values as returned by `float(...)`: finite values are
modelled as exact rationals (all scores relevant to the claims are exactly
representable; binary64 rounding is not modelled), plus the infinities and
nan that `float` also accepts. -/
inductive PyFloat where
  | finite (q : ℚ)
  | inf
  | negInf
  | nan
deriving DecidableEq

/-- Decimal digit-string value. -/
def natOfDigits (ds : List Char) : Nat :=
  ds.foldl (fun n c => n * 10 + (c.toNat - '0'.toNat)) 0

/-- Split at the first `e`/`E` (mantissa, optional exponent text). -/
def splitOnExp : List Char → List Char × Option (List Char)
  | [] => ([], none)
  | c :: rest =>
    if c = 'e' ∨ c = 'E' then ([], some rest)
    else
      let (m, e) := splitOnExp rest
      (c :: m, e)

/-- `digits [. digits]` with at least one digit, as an exact rational. -/
def parseMantissa (cs : List Char) : Option ℚ :=
  let ip := cs.takeWhile (·.isDigit)
  let rest := cs.dropWhile (·.isDigit)
  match rest with
  | [] => if ip.isEmpty then none else some (natOfDigits ip : ℚ)
  | '.' :: fr =>
    let fp := fr.takeWhile (·.isDigit)
    let rest2 := fr.dropWhile (·.isDigit)
    if rest2.isEmpty then
      if ip.isEmpty ∧ fp.isEmpty then none
      else some ((natOfDigits ip : ℚ) + (natOfDigits fp : ℚ) / (10 : ℚ) ^ fp.length)
    else none
  | _ => none

/-- Exponent part: optional sign then a nonempty digit string. -/
def parseExp (cs : List Char) : Option Int :=
  match cs with
  | [] => none
  | '+' :: ds => if ¬ ds.isEmpty ∧ ds.all (·.isDigit) then some (natOfDigits ds : Int) else none
  | '-' :: ds => if ¬ ds.isEmpty ∧ ds.all (·.isDigit) then some (-(natOfDigits ds : Int)) else none
  | ds => if ds.all (·.isDigit) then some (natOfDigits ds : Int) else none

/-- Unsigned numeric literal accepted by Python `float` (digit-group
underscores are not modelled; none occur in the texts of interest). -/
def parseNumber (cs : List Char) : Option ℚ :=
  let (m, e) := splitOnExp cs
  match parseMantissa m, e with
  | some q, none => some q
  | some q, some ecs =>
    match parseExp ecs with
    | some ex => some (q * (10 : ℚ) ^ ex)
    | none => none
  | none, _ => none

/-- Python `float(s)`: strip whitespace, optional sign, then either
`inf`/`infinity`/`nan` (case-insensitive) or a numeric literal;
`none` models the `ValueError` raised on anything else. -/
def pyFloat? (cs0 : List Char) : Option PyFloat :=
  let cs := pyStrip cs0
  let sb : Bool × List Char :=
    match cs with
    | '+' :: r => (false, r)
    | '-' :: r => (true, r)
    | r => (false, r)
  let neg := sb.1
  let body := sb.2
  let lb := body.map Char.toLower
  if lb = "inf".data ∨ lb = "infinity".data then some (if neg then .negInf else .inf)
  else if lb = "nan".data then some .nan
  else
    match parseNumber body with
    | some q => some (.finite (if neg then -q else q))
    | none => none

/-- Leftmost occurrence index of `pat` in `hay` (Python `re` scans start
positions left to right). -/
def findSub (pat : List Char) : List Char → Option Nat
  | [] => if pat.isEmpty then some 0 else none
  | c :: rest =>
    if pat.isPrefixOf (c :: rest) then some 0
    else (findSub pat rest).map (· + 1)

/-- `re.search(m1 + '(.*?)' + m2, hay).group(1)` with the source's
`if match else ""` fallback: the text between the leftmost `m1` and the
first `m2` after it (the input has no newlines left, so `.` is unrestricted). -/
def extractBetween (m1 m2 hay : List Char) : List Char :=
  match findSub m1 hay with
  | none => []
  | some i =>
    let afterM1 := hay.drop (i + m1.length)
    match findSub m2 afterM1 with
    | none => []
    | some j => afterM1.take j

/-- `re.search(m + '(.*?)$', hay).group(1)` with the `""` fallback:
everything after the leftmost `m`. -/
def extractAfter (m hay : List Char) : List Char :=
  match findSub m hay with
  | none => []
  | some i => hay.drop (i + m.length)

/-- The preprocessing `re.sub(r'[\n\s*#]', '', response)`. -/
def cleanResponse (response : List Char) : List Char :=
  response.filter (fun c => !(isPySpace c || c == '*' || c == '#'))

/-- The raw `SCORE:`…`COMMENTS:` capture inside `parse_ai_response`. -/
def scoreFieldOf (response : List Char) : List Char :=
  extractBetween "SCORE:".data "COMMENTS:".data (cleanResponse response)

/-- `parse_ai_response` from `grader.py`. -/
def parse_ai_response (response : List Char) : PyFloat × List Char × List Char :=
  let cleaned := cleanResponse response
  let score := extractBetween "SCORE:".data "COMMENTS:".data cleaned
  let comments := extractBetween "COMMENTS:".data "CONFIDENCE:".data cleaned
  let confidence := extractAfter "CONFIDENCE:".data cleaned
  let scoreV : PyFloat :=
    match pyFloat? score with
    | some v => v
    | none => .finite (-100)
  (scoreV, comments, confidence)

/-! ## Submission Normalizer: `preprocess_student_submission`

The function works on `f.readlines()`; it is modelled here directly on the
list of lines. -/

/-- Characters kept by `re.sub(r'[^\w\s]', '', line)`: word characters
(ASCII letters, digits, underscore) and whitespace survive. -/
def keepIdChar (c : Char) : Bool :=
  c.isAlphanum || c == '_' || isPySpace c

/-- The student-name loop: first line that is non-empty after `strip()`,
punctuation removed and stripped again; `""` when no such line exists. -/
def extractName : List (List Char) → List Char
  | [] => []
  | l :: rest =>
    let line := pyStrip l
    if line.isEmpty then extractName rest
    else pyStrip (line.filter keepIdChar)

/-- `next((i for i, line in enumerate(lines) if p line), None)`. -/
def findIdxOpt (p : List Char → Bool) : List (List Char) → Option Nat
  | [] => none
  | l :: rest => if p l then some 0 else (findIdxOpt p rest).map (· + 1)

/-- `line.strip().startswith("import")`. -/
def startsWithImport (l : List Char) : Bool :=
  "import".data.isPrefixOf (pyStrip l)

/-- `line.strip().startswith("public class")`. -/
def startsWithPublicClass (l : List Char) : Bool :=
  "public class".data.isPrefixOf (pyStrip l)

/-- `min(filter(lambda x: x is not None, [import_index, public_class_index,
len(lines)]))`: the minimum of whichever indices exist, with `len(lines)`
always a candidate. -/
def code_start_index (lines : List (List Char)) : Nat :=
  match findIdxOpt startsWithImport lines, findIdxOpt startsWithPublicClass lines with
  | some i, some j => min (min i j) lines.length
  | some i, none => min i lines.length
  | none, some j => min j lines.length
  | none, none => lines.length

/-- Match of `^\s*//+\s?` at a line-start position: greedy whitespace
(which may span newlines), at least two slashes, one optional whitespace
character.  Returns the rest of the text after the match and whether the
match ended with a newline (so the next scan position is a line start). -/
def tryA (cs : List Char) : Option (List Char × Bool) :=
  let rest1 := cs.dropWhile isPySpace
  let slashes := rest1.takeWhile (· == '/')
  let rest2 := rest1.dropWhile (· == '/')
  if 2 ≤ slashes.length then
    match rest2 with
    | c :: rest3 => if isPySpace c then some (rest3, c == '\n') else some (rest2, false)
    | [] => some ([], false)
  else none

/-- `re.sub(r'^\s*//+\s?', '', text, flags=re.MULTILINE)`: scan left to
right, attempting a match only at line-start positions. -/
def passA : Nat → Bool → List Char → List Char
  | 0, _, cs => cs
  | _ + 1, _, [] => []
  | fuel + 1, atStart, c :: rest =>
    if atStart then
      match tryA (c :: rest) with
      | some (rem, nl) => passA fuel nl rem
      | none => c :: passA fuel (c == '\n') rest
    else c :: passA fuel (c == '\n') rest

/-- `re.sub(r'/\*|\*/', '', text)`: delete every `/*` and `*/`. -/
def passB : List Char → List Char
  | [] => []
  | '/' :: '*' :: rest => passB rest
  | '*' :: '/' :: rest => passB rest
  | c :: rest => c :: passB rest

/-- Match of `^\s*\*\s?` at a line-start position. -/
def tryC (cs : List Char) : Option (List Char × Bool) :=
  let rest1 := cs.dropWhile isPySpace
  match rest1 with
  | '*' :: rest2 =>
    match rest2 with
    | c :: rest3 => if isPySpace c then some (rest3, c == '\n') else some (rest2, false)
    | [] => some ([], false)
  | _ => none

/-- `re.sub(r'^\s*\*\s?', '', text, flags=re.MULTILINE)`. -/
def passC : Nat → Bool → List Char → List Char
  | 0, _, cs => cs
  | _ + 1, _, [] => []
  | fuel + 1, atStart, c :: rest =>
    if atStart then
      match tryC (c :: rest) with
      | some (rem, nl) => passC fuel nl rem
      | none => c :: passC fuel (c == '\n') rest
    else c :: passC fuel (c == '\n') rest

/-- Number of characters up to and including the last `'\n'` of the list,
if it has one. -/
def lastNlCount : List Char → Option Nat
  | [] => none
  | c :: rest =>
    match lastNlCount rest with
    | some n => some (n + 1)
    | none => if c = '\n' then some 1 else none

/-- Match of `^\s*$\n` at a line-start position: the greedy `\s*` backtracks
until `$` holds before a `'\n'`, so the match consumes the whitespace run up
to and including its last newline; no newline in the run means no match. -/
def tryD (cs : List Char) : Option (List Char) :=
  match lastNlCount (cs.takeWhile isPySpace) with
  | some n => some (cs.drop n)
  | none => none

/-- `re.sub(r'^\s*$\n', '', text, flags=re.MULTILINE)`: drops blank lines.
A match always ends right after a newline, hence resumes at a line start. -/
def passD : Nat → Bool → List Char → List Char
  | 0, _, cs => cs
  | _ + 1, _, [] => []
  | fuel + 1, atStart, c :: rest =>
    if atStart then
      match tryD (c :: rest) with
      | some rem => passD fuel true rem
      | none => c :: passD fuel (c == '\n') rest
    else c :: passD fuel (c == '\n') rest

/-- `remove_comment_symbols` from `grader.py`: the four regex passes in
source order, then `strip()`. -/
def remove_comment_symbols (text : List Char) : List Char :=
  let t1 := passA text.length true text
  let t2 := passB t1
  let t3 := passC t2.length true t2
  let t4 := passD t3.length true t3
  pyStrip t4

/-- `preprocess_student_submission` from `grader.py`, on the `readlines()`
result: the extracted student name and the rendered header/code block. -/
def preprocess_student_submission (lines : List (List Char)) : List Char × List Char :=
  let student_name := extractName lines
  let k := code_start_index lines
  let student_header := remove_comment_symbols (lines.take k).flatten
  let student_code := (lines.drop k).flatten
  let processed_code :=
    "**HEADER:**\n".data ++ student_header ++ "\n\n**CODE:**\n```java\n".data ++
      student_code ++ "```".data
  (student_name, processed_code)

/-! ## Lemmas about the lexical stripper -/

theorem lineLen_le (cs : List Char) : lineLen cs ≤ cs.length := by
  induction cs with
  | nil => simp [lineLen]
  | cons c rest ih => simp only [lineLen, List.length_cons]; split <;> omega

theorem lineLen_eq {cs : List Char} (h : ∀ c ∈ cs, c ≠ '\n') : lineLen cs = cs.length := by
  induction cs with
  | nil => simp [lineLen]
  | cons c rest ih =>
    have hc : c ≠ '\n' := h c (by simp)
    simp only [lineLen, if_neg hc, List.length_cons]
    rw [ih (fun d hd => h d (by simp [hd]))]

theorem findStarSlash_le {cs : List Char} {n : Nat} (h : findStarSlash cs = some n) :
    n ≤ cs.length := by
  induction cs generalizing n with
  | nil => simp [findStarSlash] at h
  | cons c rest ih =>
    simp only [findStarSlash] at h
    split at h
    · rename_i hc
      simp at h
      subst h
      rcases rest with _ | ⟨d, rest'⟩
      · simp at hc
      · simp
    · rcases hfs : findStarSlash rest with _ | m
      · simp [hfs] at h
      · rw [hfs] at h
        simp at h
        have := ih hfs
        simp
        omega

theorem findStarSlash_none {cs : List Char} (h : '/' ∉ cs) : findStarSlash cs = none := by
  induction cs with
  | nil => rfl
  | cons c rest ih =>
    have hrest : '/' ∉ rest := fun hm => h (by simp [hm])
    have hcond : ¬(c = '*' ∧ rest.head? = some '/') := by
      rintro ⟨-, hh⟩
      rcases rest with _ | ⟨d, rest'⟩
      · simp at hh
      · simp at hh
        exact h (by simp [hh])
    simp only [findStarSlash, if_neg hcond, ih hrest, Option.map_none']

theorem strBody_cons_other {c : Char} (rest : List Char) (h2 : c ≠ '"') (h3 : c ≠ '\\') :
    strBody (c :: rest) = (strBody rest).map (· + 1) := by
  conv_lhs => rw [strBody.eq_def]
  split
  · rename_i heq; cases heq
  · rename_i heq; injection heq with ha _; exact absurd ha h2
  · rename_i heq; injection heq with ha _; exact absurd ha h3
  · rename_i heq; injection heq with ha _; exact absurd ha h3
  · rename_i heq; injection heq with _ hb; rw [hb]

theorem strBody_le {cs : List Char} {n : Nat} (h : strBody cs = some n) :
    n ≤ cs.length := by
  induction cs using strBody.induct generalizing n with
  | case1 => simp [strBody] at h
  | case2 tail => simp [strBody] at h; simp; omega
  | case3 => simp [strBody] at h
  | case4 rest2 => simp [strBody] at h
  | case5 d rest2 hd ih =>
    simp only [strBody, if_neg hd] at h
    rcases hsb : strBody rest2 with _ | m
    · simp [hsb] at h
    · rw [hsb] at h
      simp at h
      have := ih hsb
      simp
      omega
  | case6 c rest h1 hb2 hb3 ih =>
    rw [strBody_cons_other rest (fun hc => h1 hc)
      (fun hc => by rcases rest with _ | ⟨d, r⟩; exact hb2 hc rfl; exact hb3 d r hc rfl)] at h
    rcases hsb : strBody rest with _ | m
    · simp [hsb] at h
    · rw [hsb] at h
      simp at h
      have := ih hsb
      simp
      omega

theorem strBody_none {cs : List Char} (h : '"' ∉ cs) : strBody cs = none := by
  induction cs using strBody.induct with
  | case1 => rfl
  | case2 tail => simp at h
  | case3 => rfl
  | case4 rest2 => simp [strBody]
  | case5 d rest2 hd ih =>
    have : '"' ∉ rest2 := fun hm => h (by simp [hm])
    simp [strBody, if_neg hd, ih this]
  | case6 c rest h1 hb2 hb3 ih =>
    have hne2 : c ≠ '"' := fun hc => h1 hc
    have hne3 : c ≠ '\\' := fun hc => by
      rcases rest with _ | ⟨d, r⟩
      · exact hb2 hc rfl
      · exact hb3 d r hc rfl
    have : '"' ∉ rest := fun hm => h (by simp [hm])
    simp [strBody_cons_other rest hne2 hne3, ih this]

theorem strBody_closed {b : List Char} (r : List Char) (hb : ∀ c ∈ b, c ≠ '"' ∧ c ≠ '\\') :
    strBody (b ++ '"' :: r) = some (b.length + 1) := by
  induction b with
  | nil => simp [strBody]
  | cons c b' ih =>
    have hc := hb c (by simp)
    have hrest : ∀ c ∈ b', c ≠ '"' ∧ c ≠ '\\' := fun d hd => hb d (by simp [hd])
    rw [List.cons_append, strBody_cons_other _ hc.1 hc.2, ih hrest]
    simp

theorem chrBody_cons_other {c : Char} (rest : List Char) (h2 : c ≠ '\'') (h3 : c ≠ '\\') :
    chrBody (c :: rest) = (chrBody rest).map (· + 1) := by
  conv_lhs => rw [chrBody.eq_def]
  split
  · rename_i heq; cases heq
  · rename_i heq; injection heq with ha _; exact absurd ha h2
  · rename_i heq; injection heq with ha _; exact absurd ha h3
  · rename_i heq; injection heq with ha _; exact absurd ha h3
  · rename_i heq; injection heq with _ hb; rw [hb]

theorem chrBody_le {cs : List Char} {n : Nat} (h : chrBody cs = some n) :
    n ≤ cs.length := by
  induction cs using chrBody.induct generalizing n with
  | case1 => simp [chrBody] at h
  | case2 tail => simp [chrBody] at h; simp; omega
  | case3 => simp [chrBody] at h
  | case4 rest2 => simp [chrBody] at h
  | case5 d rest2 hd ih =>
    simp only [chrBody, if_neg hd] at h
    rcases hsb : chrBody rest2 with _ | m
    · simp [hsb] at h
    · rw [hsb] at h
      simp at h
      have := ih hsb
      simp
      omega
  | case6 c rest h1 hb2 hb3 ih =>
    rw [chrBody_cons_other rest (fun hc => h1 hc)
      (fun hc => by rcases rest with _ | ⟨d, r⟩; exact hb2 hc rfl; exact hb3 d r hc rfl)] at h
    rcases hsb : chrBody rest with _ | m
    · simp [hsb] at h
    · rw [hsb] at h
      simp at h
      have := ih hsb
      simp
      omega

theorem chrBody_none {cs : List Char} (h : '\'' ∉ cs) : chrBody cs = none := by
  induction cs using chrBody.induct with
  | case1 => rfl
  | case2 tail => simp at h
  | case3 => rfl
  | case4 rest2 => simp [chrBody]
  | case5 d rest2 hd ih =>
    have : '\'' ∉ rest2 := fun hm => h (by simp [hm])
    simp [chrBody, if_neg hd, ih this]
  | case6 c rest h1 hb2 hb3 ih =>
    have hne2 : c ≠ '\'' := fun hc => h1 hc
    have hne3 : c ≠ '\\' := fun hc => by
      rcases rest with _ | ⟨d, r⟩
      · exact hb2 hc rfl
      · exact hb3 d r hc rfl
    have : '\'' ∉ rest := fun hm => h (by simp [hm])
    simp [chrBody_cons_other rest hne2 hne3, ih this]

theorem tryMatch_none {c : Char} (rest : List Char) (h1 : c ≠ '/') (h2 : c ≠ '"')
    (h3 : c ≠ '\'') : tryMatch (c :: rest) = none := by
  unfold tryMatch
  split
  · rename_i heq; injection heq with ha _; exact absurd ha h1
  · rename_i heq; injection heq with ha _; exact absurd ha h1
  · rename_i heq; injection heq with ha _; exact absurd ha h2
  · rename_i heq; injection heq with ha _; exact absurd ha h3
  · rfl

theorem tryMatch_le {cs : List Char} {n : Nat} (h : tryMatch cs = some n) :
    n ≤ cs.length := by
  unfold tryMatch at h
  split at h
  · simp at h
    rename_i rest
    have := lineLen_le rest
    simp
    omega
  · rename_i rest
    rcases hfs : findStarSlash rest with _ | m
    · simp [hfs] at h
    · rw [hfs] at h
      simp at h
      have := findStarSlash_le hfs
      simp
      omega
  · rename_i rest
    rcases hsb : strBody rest with _ | m
    · simp [hsb] at h
    · rw [hsb] at h
      simp at h
      have := strBody_le hsb
      simp
      omega
  · rename_i rest
    rcases hcb : chrBody rest with _ | m
    · simp [hcb] at h
    · rw [hcb] at h
      simp at h
      have := chrBody_le hcb
      simp
      omega
  · simp at h

theorem stripFuel_nil (fuel : Nat) : stripFuel fuel [] = [] := by
  cases fuel <;> rfl

theorem stripFuel_cons_none {c : Char} {rest : List Char} (fuel : Nat)
    (h : tryMatch (c :: rest) = none) :
    stripFuel (fuel + 1) (c :: rest) = c :: stripFuel fuel rest := by
  rw [stripFuel, h]

theorem stripFuel_cons_match {c : Char} {rest : List Char} {n : Nat} (fuel : Nat)
    (h : tryMatch (c :: rest) = some (n + 1)) :
    stripFuel (fuel + 1) (c :: rest) =
      List.replicate (n + 1) ' ' ++ stripFuel fuel (rest.drop n) := by
  rw [stripFuel, h]

theorem stripFuel_length : ∀ (fuel : Nat) (cs : List Char), cs.length ≤ fuel →
    (stripFuel fuel cs).length = cs.length := by
  intro fuel
  induction fuel with
  | zero => intro cs h; rfl
  | succ fuel ih =>
    intro cs h
    match cs with
    | [] => rfl
    | c :: rest =>
      rw [stripFuel]
      rcases htm : tryMatch (c :: rest) with _ | m
      · simp only [htm]
        have := ih rest (by simp at h; omega)
        simp [this]
      · match m with
        | 0 =>
          simp only [htm]
          have := ih rest (by simp at h; omega)
          simp [this]
        | n + 1 =>
          simp only [htm]
          have hle := tryMatch_le htm
          simp at hle h
          have := ih (rest.drop n) (by simp; omega)
          simp [this]
          omega

theorem stripFuel_congr : ∀ (f g : Nat) (cs : List Char), cs.length ≤ f → cs.length ≤ g →
    stripFuel f cs = stripFuel g cs := by
  intro f
  induction f with
  | zero =>
    intro g cs hf hg
    have : cs = [] := List.length_eq_zero.mp (Nat.le_zero.mp hf)
    subst this
    cases g <;> rfl
  | succ f ih =>
    intro g cs hf hg
    match cs, g with
    | [], 0 => rfl
    | [], g + 1 => rfl
    | c :: rest, g + 1 =>
      rw [stripFuel, stripFuel]
      rcases htm : tryMatch (c :: rest) with _ | m
      · simp only [htm]
        have := ih g rest (by simp at hf; omega) (by simp at hg; omega)
        rw [this]
      · match m with
        | 0 =>
          simp only [htm]
          have := ih g rest (by simp at hf; omega) (by simp at hg; omega)
          rw [this]
        | n + 1 =>
          simp only [htm]
          have hle := tryMatch_le htm
          simp at hle hf hg
          have := ih g (rest.drop n) (by simp; omega) (by simp; omega)
          rw [this]

theorem stripFuel_id : ∀ (fuel : Nat) (cs : List Char),
    (∀ c ∈ cs, c ≠ '/' ∧ c ≠ '"' ∧ c ≠ '\'') → stripFuel fuel cs = cs := by
  intro fuel
  induction fuel with
  | zero => intro cs h; rfl
  | succ fuel ih =>
    intro cs h
    match cs with
    | [] => rfl
    | c :: rest =>
      have hc := h c (by simp)
      rw [stripFuel, tryMatch_none rest hc.1 hc.2.1 hc.2.2]
      rw [ih rest (fun d hd => h d (by simp [hd]))]

/-! ## Claim theorems about the lexical stripper -/

/-- C10: for every input text the Lexical Stripper preserves total
character count, `len(remove_comments_and_strings(code)) == len(code)`,
because every matched region is replaced by an equal-length run of spaces. -/
theorem C10_strip_preserves_total_length (code : List Char) :
    (remove_comments_and_strings code).length = code.length :=
  stripFuel_length code.length code (Nat.le_refl _)

/-- C1: the claim that the stripper preserves line structure fails on the
code (and contradicts the source's own comment "to keep line numbers
consistent"): a block comment spanning two lines is replaced by spaces
including its newline, so the two-line input `a/*x\ny*/b` becomes the
one-line output `a       b`. -/
theorem C1_line_structure_failing_input :
    remove_comments_and_strings "a/*x\ny*/b".data = "a       b".data
  ∧ "a/*x\ny*/b".data.count '\n' = 1
  ∧ "a       b".data.count '\n' = 0 := by decide

/-- C4, counterexample: an unterminated block comment is not blanked at
all — on `/*abc` the stripper returns the input unchanged instead of
blanking it through end-of-input. -/
theorem C4_counterexample :
    remove_comments_and_strings "/*abc".data = "/*abc".data
  ∧ remove_comments_and_strings "/*abc".data ≠ "      ".data := by decide

/-- C4, amended: the stripper is total (never raises), but it leaves an
unterminated construct in place rather than blanking it to end-of-input:
an unterminated block comment `/*`‹tail› or string `"`‹tail› whose tail
contains no further delimiter or comment-start characters is returned
verbatim. -/
theorem C4_amended (tail : List Char)
    (h : ∀ c ∈ tail, c ≠ '/' ∧ c ≠ '"' ∧ c ≠ '\'') :
    remove_comments_and_strings ('/' :: '*' :: tail) = '/' :: '*' :: tail
  ∧ remove_comments_and_strings ('"' :: tail) = '"' :: tail := by
  constructor
  · have hns : findStarSlash tail = none :=
      findStarSlash_none (fun hm => (h '/' hm).1 rfl)
    have h1 : tryMatch ('/' :: '*' :: tail) = none := by
      rw [tryMatch, hns]
      rfl
    have h2 : tryMatch ('*' :: tail) = none :=
      tryMatch_none tail (by decide) (by decide) (by decide)
    rw [remove_comments_and_strings]
    simp only [List.length_cons]
    rw [stripFuel_cons_none (tail.length + 1) h1, stripFuel_cons_none tail.length h2,
      stripFuel_id tail.length tail h]
  · have hsb : strBody tail = none :=
      strBody_none (fun hm => (h '"' hm).2.1 rfl)
    have h1 : tryMatch ('"' :: tail) = none := by
      rw [tryMatch, hsb]
      rfl
    rw [remove_comments_and_strings]
    simp only [List.length_cons]
    rw [stripFuel_cons_none tail.length h1, stripFuel_id tail.length tail h]

/-- C4, witness for the amended theorem at the concrete tail `abc`. -/
theorem C4_amended_witness :
    (∀ c ∈ "abc".data, c ≠ '/' ∧ c ≠ '"' ∧ c ≠ '\'')
  ∧ remove_comments_and_strings ('/' :: '*' :: "abc".data) = '/' :: '*' :: "abc".data :=
  ⟨by decide, (C4_amended "abc".data (by decide)).1⟩

/-- C8, counterexample: the claim quantifies over every input, but in the
input `/* "a" b` the whole text lies inside an (unterminated) block
comment under the spec's own classification (`specStrip` blanks all of
it), while the code's regex scan treats the quote inside that comment as
starting a literal: it blanks exactly `"a"` and leaves the comment text
in place. -/
theorem C8_counterexample :
    SpecModel.specStrip "/* \"a\" b".data = "        ".data
  ∧ remove_comments_and_strings "/* \"a\" b".data = "/*     b".data
  ∧ remove_comments_and_strings "/* \"a\" b".data ≠ SpecModel.specStrip "/* \"a\" b".data := by
  decide

/-- C8, amended: for terminated constructs the claim holds — a `//` inside
a closed string literal does not start a comment (the literal is blanked
as one unit and scanning resumes only after it), and a quote inside a
line comment does not start a literal (the whole remainder of the line is
blanked as one comment); only inside unterminated constructs can the code
confuse the two (see the counterexample). -/
theorem C8_amended (b r : List Char) (hb : ∀ c ∈ b, c ≠ '"' ∧ c ≠ '\\')
    (hr : ∀ c ∈ r, c ≠ '\n') :
    remove_comments_and_strings ('"' :: (b ++ '"' :: r))
      = List.replicate (b.length + 2) ' ' ++ remove_comments_and_strings r
  ∧ remove_comments_and_strings ('/' :: '/' :: r) = List.replicate (r.length + 2) ' ' := by
  constructor
  · have hsb : strBody (b ++ '"' :: r) = some (b.length + 1) := strBody_closed r hb
    have h1 : tryMatch ('"' :: (b ++ '"' :: r)) = some ((b.length + 1) + 1) := by
      rw [tryMatch, hsb]
      rfl
    have hlen : ('"' :: (b ++ '"' :: r)).length = (b.length + r.length + 1) + 1 := by
      simp
      omega
    rw [remove_comments_and_strings, hlen,
      stripFuel_cons_match (b.length + r.length + 1) h1]
    have hdrop : (b ++ '"' :: r).drop (b.length + 1) = r := by
      rw [show b.length + 1 = (b ++ ['"']).length by simp, show b ++ '"' :: r = (b ++ ['"']) ++ r by simp,
        List.drop_left]
    rw [hdrop, stripFuel_congr (b.length + r.length + 1) r.length r (by omega) (Nat.le_refl _)]
    rfl
  · have h1 : tryMatch ('/' :: '/' :: r) = some ((r.length + 1) + 1) := by
      rw [tryMatch, lineLen_eq hr]
      congr 1
      omega
    have hlen : ('/' :: '/' :: r).length = (r.length + 1) + 1 := by simp
    rw [remove_comments_and_strings, hlen, stripFuel_cons_match (r.length + 1) h1]
    rw [show ('/' :: r).drop (r.length + 1) = [] from
      List.drop_eq_nil_of_le (by simp), stripFuel_nil]
    simp

/-- C8, witness for the amended theorem: the literal body
`http://example.com` (which contains `//`) and a comment remainder
` x = "a"` (which contains quotes). -/
theorem C8_amended_witness :
    ((∀ c ∈ "http://example.com".data, c ≠ '"' ∧ c ≠ '\\')
      ∧ (∀ c ∈ " x = \"a\"".data, c ≠ '\n'))
  ∧ remove_comments_and_strings ('/' :: '/' :: " x = \"a\"".data)
      = List.replicate (" x = \"a\"".data.length + 2) ' ' :=
  ⟨⟨by decide, by decide⟩,
    (C8_amended "http://example.com".data " x = \"a\"".data (by decide) (by decide)).2⟩

/-! ## Style Analyzer claims -/

theorem brace_step (n : Nat) (line : List Char) :
    (let stripped_line := pyStrip line
     if stripped_line.isEmpty then n
     else if '{' ∈ stripped_line ∨ '}' ∈ stripped_line then
       if stripped_line = ['{'] ∨ stripped_line = ['}'] then n else n + 1
     else n)
    = n + (if braceViolationLine line then 1 else 0) := by
  simp only [braceViolationLine]
  by_cases h1 : pyStrip line = []
  · simp [h1, List.isEmpty_iff]
  · by_cases h2 : '{' ∈ pyStrip line ∨ '}' ∈ pyStrip line
    · by_cases h3 : pyStrip line = ['{'] ∨ pyStrip line = ['}']
      · rcases h3 with h3 | h3 <;> simp [h3]
      · push_neg at h3
        simp [List.isEmpty_iff, h1, h2, h3.1, h3.2]
    · simp [List.isEmpty_iff, h1, h2]

theorem brace_foldl (lines : List (List Char)) : ∀ n : Nat,
    (lines.foldl
      (fun errors line =>
        let stripped_line := pyStrip line
        if stripped_line.isEmpty then errors
        else if '{' ∈ stripped_line ∨ '}' ∈ stripped_line then
          if stripped_line = ['{'] ∨ stripped_line = ['}'] then errors
          else errors + 1
        else errors)
      n)
    = n + lines.countP braceViolationLine := by
  induction lines with
  | nil => intro n; simp
  | cons l rest ih =>
    intro n
    rw [List.foldl_cons, ih, brace_step n l, List.countP_cons]
    by_cases h : braceViolationLine l
    all_goals simp [h]
    all_goals omega

/-- C5: `check_brackets` counts exactly the lines of the structural view
that are non-blank after trimming, contain `{` or `}`, and do not trim to
exactly `{` or `}` — one per line regardless of how many braces it holds —
and in particular returns 0 when every brace line trims to a lone brace. -/
theorem C5_check_brackets (code : List Char) :
    check_brackets code
      = (splitNl (remove_comments_and_strings code)).countP braceViolationLine
  ∧ ((∀ l ∈ splitNl (remove_comments_and_strings code),
        ('{' ∈ pyStrip l ∨ '}' ∈ pyStrip l) → pyStrip l = ['{'] ∨ pyStrip l = ['}']) →
      check_brackets code = 0) := by
  have h1 : check_brackets code
      = (splitNl (remove_comments_and_strings code)).countP braceViolationLine := by
    rw [check_brackets, brace_foldl _ 0]
    omega
  refine ⟨h1, fun hall => ?_⟩
  rw [h1]
  rw [List.countP_eq_zero]
  intro l hl
  simp only [braceViolationLine, decide_eq_true_eq]
  rintro ⟨-, hmem, hne1, hne2⟩
  rcases hall l hl hmem with h | h
  · exact hne1 h
  · exact hne2 h

/-- C5, witness: a file whose brace lines trim to lone braces has count 0. -/
theorem C5_witness :
    (∀ l ∈ splitNl (remove_comments_and_strings "\x7b\n\x7d".data),
        ('{' ∈ pyStrip l ∨ '}' ∈ pyStrip l) → pyStrip l = ['{'] ∨ pyStrip l = ['}'])
  ∧ check_brackets "\x7b\n\x7d".data = 0 :=
  ⟨by decide, (C5_check_brackets "\x7b\n\x7d".data).2 (by decide)⟩

/-- C2: the claim fails on the code.  For the single-line file consisting
of exactly the required boundary literal (first print = last print =
required literal), `check_new_lines` still reports a violation, because
its return expression is the chained comparison
`first != required + last != required`, not the intended
`first != required or last != required`. -/
theorem C2_chained_comparison_failing_input :
    pyReadlines required_print = [required_print]
  ∧ printlnPrefix.isPrefixOf required_print = true
  ∧ check_new_lines required_print = true := by decide

/-! ## Response Contract Parser claims -/

/-- C3, counterexample: on the spec's example response the comments field
comes back with its interior space removed — `goodjob`, not `good job` —
because the preprocessing strips every whitespace character before the
markers are matched. -/
theorem C3_counterexample :
    (parse_ai_response "SCORE:85\nCOMMENTS: good job\nCONFIDENCE:4".data).2.1
      = "goodjob".data
  ∧ "goodjob".data ≠ "good job".data := by decide

/-- C3, amended: on `"SCORE:85\nCOMMENTS: good job\nCONFIDENCE:4"` the
parser returns score 85, comments `"goodjob"` (all whitespace removed by
the preprocessing), and confidence `"4"`. -/
theorem C3_amended :
    parse_ai_response "SCORE:85\nCOMMENTS: good job\nCONFIDENCE:4".data
      = (PyFloat.finite 85, "goodjob".data, "4".data) := by decide

/-- C6: `parse_ai_response` always returns a triple (it is a total
function), and whenever the extracted score field is empty (in particular
when a marker is absent) or fails to parse as a float, the score is the
sentinel -100. -/
theorem C6_sentinel (response : List Char)
    (h : scoreFieldOf response = [] ∨ pyFloat? (scoreFieldOf response) = none) :
    (parse_ai_response response).1 = PyFloat.finite (-100) := by
  have hnone : pyFloat? (scoreFieldOf response) = none := by
    rcases h with h | h
    · rw [h]
      decide
    · exact h
  show (match pyFloat? (scoreFieldOf response) with
        | some v => v
        | none => PyFloat.finite (-100)) = PyFloat.finite (-100)
  rw [hnone]

/-- C6, witness: a response with no `SCORE:` marker yields the sentinel. -/
theorem C6_witness :
    (scoreFieldOf "hello".data = [] ∨ pyFloat? (scoreFieldOf "hello".data) = none)
  ∧ (parse_ai_response "hello".data).1 = PyFloat.finite (-100) :=
  ⟨Or.inl (by decide), C6_sentinel "hello".data (Or.inl (by decide))⟩

/-! ## Score aggregation claim -/

/-- C9: the final score is the model score minus the total deduction,
each rule's deduction being `min(cap, count * per)`; no floor or ceiling
is applied (90 and deduction 7 give exactly 83), and a sentinel model
score of -100 propagates through the subtraction (giving at most -93 for
any nonnegative configuration). -/
theorem C9_aggregation (text : List Char) (m bMax bPer nMax nPer : ℚ)
    (h1 : 0 ≤ bMax) (h2 : 0 ≤ bPer) (h3 : 0 ≤ nMax) (h4 : 0 ≤ nPer) :
    final_score m text bMax bPer nMax nPer
      = m - (min bMax ((check_brackets text : ℚ) * bPer)
           + min nMax ((if check_new_lines text then (1 : ℚ) else 0) * nPer))
  ∧ (m = 90 → check_formatting text bMax bPer nMax nPer = 7 →
      final_score m text bMax bPer nMax nPer = 83)
  ∧ (m = -100 → final_score m text bMax bPer nMax nPer ≤ -93) := by
  have hform : check_formatting text bMax bPer nMax nPer
      = min bMax ((check_brackets text : ℚ) * bPer)
      + min nMax ((if check_new_lines text then (1 : ℚ) else 0) * nPer) := by
    simp only [check_formatting]
    ring
  have hded : 0 ≤ check_formatting text bMax bPer nMax nPer := by
    rw [hform]
    have d1 : 0 ≤ min bMax ((check_brackets text : ℚ) * bPer) :=
      le_min h1 (mul_nonneg (by positivity) h2)
    have d2 : 0 ≤ min nMax ((if check_new_lines text then (1 : ℚ) else 0) * nPer) := by
      refine le_min h3 (mul_nonneg ?_ h4)
      split <;> norm_num
    linarith
  refine ⟨by rw [final_score, hform], fun hm hcf => ?_, fun hm => ?_⟩
  · rw [final_score, hm, hcf]
    norm_num
  · rw [final_score, hm]
    linarith

/-- C9, witness at a concrete nonnegative configuration. -/
theorem C9_witness :
    ((0:ℚ) ≤ 10 ∧ (0:ℚ) ≤ 1 ∧ (0:ℚ) ≤ 5 ∧ (0:ℚ) ≤ 1)
  ∧ final_score 90 "".data 10 1 5 1
      = 90 - (min 10 ((check_brackets "".data : ℚ) * 1)
            + min 5 ((if check_new_lines "".data then (1 : ℚ) else 0) * 1)) :=
  ⟨⟨by norm_num, by norm_num, by norm_num, by norm_num⟩,
    (C9_aggregation "".data 90 10 1 5 1 (by norm_num) (by norm_num) (by norm_num)
      (by norm_num)).1⟩

/-! ## Submission Normalizer claim -/

theorem extractName_eq (lines : List (List Char)) :
    extractName lines
      = ((lines.find? (fun l => !(pyStrip l).isEmpty)).map
          (fun l => pyStrip ((pyStrip l).filter keepIdChar))).getD [] := by
  induction lines with
  | nil => rfl
  | cons l rest ih =>
    by_cases h : (pyStrip l).isEmpty
    · simp [extractName, List.find?_cons, h, ih]
    · simp [extractName, List.find?_cons, h]

theorem code_start_index_eq_findIdx (lines : List (List Char)) :
    code_start_index lines
      = lines.findIdx (fun l => startsWithImport l || startsWithPublicClass l) := by
  induction lines with
  | nil => rfl
  | cons l rest ih =>
    rw [List.findIdx_cons]
    by_cases h1 : startsWithImport l
    · by_cases h2 : startsWithPublicClass l
      · simp [code_start_index, findIdxOpt, h1, h2]
      · rcases hpc : findIdxOpt startsWithPublicClass rest with _ | j <;>
          simp [code_start_index, findIdxOpt, h1, h2, hpc]
    · by_cases h2 : startsWithPublicClass l
      · rcases himp : findIdxOpt startsWithImport rest with _ | i <;>
          simp [code_start_index, findIdxOpt, h1, h2, himp]
      · rcases himp : findIdxOpt startsWithImport rest with _ | i <;>
          rcases hpc : findIdxOpt startsWithPublicClass rest with _ | j
        all_goals
          simp only [code_start_index, himp, hpc] at ih
        all_goals
          simp [code_start_index, findIdxOpt, h1, h2, himp, hpc]
        all_goals omega

/-- C7: `preprocess_student_submission` extracts as identity the first
line that is non-empty after trimming, with non-word non-space characters
removed and the result trimmed (empty if no such line); the code segment
of its rendered output starts at the minimum of the first `import` line
index and the first `public class` line index — equivalently the first
line starting with either — inclusive, and falls back to end-of-file
(empty code segment) when neither exists. -/
theorem C7_preprocess (lines : List (List Char)) :
    (preprocess_student_submission lines).1
      = ((lines.find? (fun l => !(pyStrip l).isEmpty)).map
          (fun l => pyStrip ((pyStrip l).filter keepIdChar))).getD []
  ∧ code_start_index lines
      = lines.findIdx (fun l => startsWithImport l || startsWithPublicClass l)
  ∧ (preprocess_student_submission lines).2
      = "**HEADER:**\n".data
          ++ remove_comment_symbols (lines.take (code_start_index lines)).flatten
          ++ "\n\n**CODE:**\n```java\n".data
          ++ (lines.drop (code_start_index lines)).flatten ++ "```".data
  ∧ ((∀ l ∈ lines, startsWithImport l = false ∧ startsWithPublicClass l = false) →
      (lines.drop (code_start_index lines)).flatten = []) := by
  refine ⟨extractName_eq lines, code_start_index_eq_findIdx lines, rfl, fun h => ?_⟩
  have hall : ∀ l ∈ lines, (startsWithImport l || startsWithPublicClass l) = false := by
    intro l hl
    rcases h l hl with ⟨ha, hb⟩
    simp [ha, hb]
  have : code_start_index lines = lines.length := by
    rw [code_start_index_eq_findIdx]
    exact List.findIdx_eq_length_of_false hall
  rw [this, List.drop_length]
  rfl

/-- C7, witness: a file with no `import` and no `public class` line has an
empty code segment. -/
theorem C7_witness :
    (∀ l ∈ [['x'], ['y']], startsWithImport l = false ∧ startsWithPublicClass l = false)
  ∧ (([['x'], ['y']] : List (List Char)).drop (code_start_index [['x'], ['y']])).flatten = [] :=
  ⟨by decide, (C7_preprocess [['x'], ['y']]).2.2.2 (by decide)⟩

end Grader

namespace Grader

/-- The spec's worked Submission Normalizer example: first line
`// Jane Doe 123!`, then `import java.util.*;`, then code — the identity
is `Jane Doe 123` and the code segment begins at the `import` line. -/
theorem preprocess_spec_example :
    preprocess_student_submission (pyReadlines "// Jane Doe 123!\nimport java.util.*;\nx\n".data)
      = ("Jane Doe 123".data,
         "**HEADER:**\nJane Doe 123!\n\n**CODE:**\n```java\nimport java.util.*;\nx\n```".data) := by
  decide

/-- The spec's URL example: a terminated string literal containing `//` is
blanked as one unit and the text after it is untouched. -/
theorem strip_url_literal_example :
    remove_comments_and_strings "\"http://e\".x".data = "          .x".data := by decide

end Grader
